import Mathlib

namespace WalletCli

/-!
Verification of the Multi-Wallet CLI Manager against its specification.

The development shallowly embeds the vault / key-ring operations of
`src/core.js` and `src/cli.js` and the WalletConnect session pipeline of
`src/cli.js` (`connectWallet`'s `session_proposal` and `session_request`
handlers; the standalone headless prototype handler appears in
`src/unnamed/part_002`).

External cryptographic collaborators (`encrypt`/`decrypt` via
`ethers.Wallet.fromEncryptedJson`, `signMessage`, `signTypedData`,
transaction broadcast) are modelled symbolically: an encrypted blob
remembers the secret, the address recorded in the encrypted JSON, and the
password it was encrypted under, and decryption succeeds exactly when the
passwords match (the collaborator contract
`decrypt(blob, password) -> secret | fails` of the spec); a signature value
records exactly the key and the payload that were signed.
-/

/-- A decrypted wallet as `ethers` exposes it: the private key together
with the address derived from it.  `ethers` encrypted JSON stores the
address alongside the ciphertext, so the model keeps both. -/
structure Wallet where
  privateKey : String
  address : String
deriving DecidableEq

/-- An encrypted blob (the `data` field of a record in `my_wallets.json`).
`enc sk addr pw` is the encrypted JSON produced by `wallet.encrypt(pw)`;
`corrupt` is a blob no password decrypts (file corruption). -/
inductive Blob where
  | enc (privateKey : String) (address : String) (password : String)
  | corrupt
deriving DecidableEq

/-- Model of `ethers.Wallet.fromEncryptedJson(blob, password)`: succeeds exactly
when the password matches the one the blob was encrypted under. -/
def fromEncryptedJson : Blob → String → Option Wallet
  | .enc sk addr pw, password => if password = pw then some ⟨sk, addr⟩ else none
  | .corrupt, _ => none

/-- The payload of one record persisted in `my_wallets.json`: either a
legacy plain-text record (a bare `privateKey` field) or an encrypted
record (a `data` field holding the encrypted JSON). -/
inductive RecordPayload where
  | plain (privateKey : String)
  | encrypted (blob : Blob)
deriving DecidableEq

/-- One persisted record: `{ name, data }` (or legacy `{ name, privateKey }`). -/
structure RawWallet where
  name : String
  payload : RecordPayload
deriving DecidableEq

/-- One entry of the in-memory `DECRYPTED_WALLETS` array: `{ name, wallet }`. -/
structure DecryptedWallet where
  name : String
  wallet : Wallet
deriving DecidableEq

/-- Errors thrown out of `unlockWallets` in `src/core.js`. -/
inductive UnlockError where
  | legacyPlain
  | decryptFailed
deriving DecidableEq

/-- Outcome of `unlockWallets` (`src/core.js` lines 79-95) together with
the final value of the module-global `DECRYPTED_WALLETS`.  The JS function
first assigns `DECRYPTED_WALLETS = []` and then pushes each decrypted
wallet inside the loop, so when a record throws, the global retains the
wallets pushed before the failure. -/
inductive UnlockOutcome where
  | ok (ring : List DecryptedWallet)
  | thrown (err : UnlockError) (ring : List DecryptedWallet)
deriving DecidableEq

/-- The final `DECRYPTED_WALLETS` value of an outcome. -/
def UnlockOutcome.ring : UnlockOutcome → List DecryptedWallet
  | .ok r => r
  | .thrown _ r => r

/-- The loop of `unlockWallets`: `acc` is the current `DECRYPTED_WALLETS`. -/
def unlockWalletsLoop (password : String) : List RawWallet → List DecryptedWallet → UnlockOutcome
  | [], acc => .ok acc
  | r :: rs, acc =>
    match r.payload with
    | .plain _ => .thrown .legacyPlain acc
    | .encrypted b =>
      match fromEncryptedJson b password with
      | none => .thrown .decryptFailed acc
      | some w => unlockWalletsLoop password rs (acc ++ [⟨r.name, w⟩])

/-- Model of `unlockWallets(password)` from `src/core.js`: resets
`DECRYPTED_WALLETS` to `[]`, then decrypts record by record, pushing each
success and throwing on the first failure. -/
def unlockWallets (raw : List RawWallet) (password : String) : UnlockOutcome :=
  unlockWalletsLoop password raw []

/-- The wallets a record list decrypts to under a password, up to (and
excluding) the first record that fails; `none` marks the failure. -/
def decryptedBeforeFailure (password : String) : List RawWallet → List DecryptedWallet
  | [] => []
  | r :: rs =>
    match r.payload with
    | .plain _ => []
    | .encrypted b =>
      match fromEncryptedJson b password with
      | none => []
      | some w => ⟨r.name, w⟩ :: decryptedBeforeFailure password rs

/-- Whether some record in the list fails to decrypt under the password
(a legacy plain record also throws inside the loop). -/
def someRecordFails (password : String) (raw : List RawWallet) : Bool :=
  raw.any fun r =>
    match r.payload with
    | .plain _ => true
    | .encrypted b => (fromEncryptedJson b password).isNone

/-! ### `initializeWallets` (`src/cli.js` lines 415-464): the retry loop -/

/-- Whether a whole record set decrypts under one password
(the body of one attempt of the `while (attempts > 0)` loop;
a record missing its `data` field also throws, which the `catch`
counts as a wrong password). -/
def decryptAll (password : String) : List RawWallet → Option (List DecryptedWallet)
  | [] => some []
  | r :: rs =>
    match r.payload with
    | .plain _ => none
    | .encrypted b =>
      match fromEncryptedJson b password with
      | none => none
      | some w => (decryptAll password rs).map fun l => ⟨r.name, w⟩ :: l

/-- Outcome of `initializeWallets`. `fatalExit` is `process.exit(1)` after
the attempt budget is exhausted; `migrated` is the plain-text-migration
branch taken when the first record carries a bare `privateKey`. -/
inductive InitOutcome where
  | noWallets
  | migrated (ring : List DecryptedWallet)
  | unlocked (ring : List DecryptedWallet)
  | fatalExit
deriving DecidableEq

/-- The `while (attempts > 0)` loop of `initializeWallets`: one password
is consumed per attempt (`SESSION_PASSWORD = null` on failure forces a
fresh prompt), and running out of attempts is `process.exit(1)`. -/
def attemptLoop (raw : List RawWallet) : List String → InitOutcome
  | [] => .fatalExit
  | p :: rest =>
    match decryptAll p raw with
    | some ws => .unlocked ws
    | none => attemptLoop raw rest

/-- The plain-text migration branch: every record is re-encrypted under
the freshly confirmed password; memory holds the decrypted wallets. -/
def migrateWallets (raw : List RawWallet) : List DecryptedWallet :=
  raw.map fun r =>
    match r.payload with
    | .plain sk => ⟨r.name, ⟨sk, "0x" ++ sk⟩⟩
    | .encrypted _ => ⟨r.name, ⟨"", ""⟩⟩

/-- Whether the first record is a legacy plain-text record
(`rawWallets[0].privateKey` in the JS). -/
def firstIsPlain : List RawWallet → Bool
  | [] => false
  | r :: _ =>
    match r.payload with
    | .plain _ => true
    | .encrypted _ => false

/-- Model of `initializeWallets()` from `src/cli.js`, with the interactive password
prompts abstracted as a stream `passwords : Nat -> String` (attempt `i`
uses `passwords i`).  The retry budget is the literal `let attempts = 3`. -/
def initializeWallets (raw : List RawWallet) (passwords : Nat → String) : InitOutcome :=
  if raw = [] then .noWallets
  else if firstIsPlain raw then .migrated (migrateWallets raw)
  else attemptLoop raw [passwords 0, passwords 1, passwords 2]

/-! ### `restoreWallet` / trash handling (`src/cli.js` lines 89-131) -/

/-- State of the two persisted record files. -/
structure VaultFiles where
  active : List RawWallet
  trash : List RawWallet
deriving DecidableEq

/-- Model of `restoreWallet` on a chosen trash index: `trash.splice(idx, 1)` removes
the entry and the record is pushed onto the active file.  (The follow-up
in-session unlock attempt only touches `DECRYPTED_WALLETS` and is a
warning on failure; it does not affect either file.)  An out-of-range
index cannot be chosen from the menu and leaves both files unchanged. -/
def restoreWallet (v : VaultFiles) (idx : Nat) : VaultFiles :=
  if h : idx < v.trash.length then
    { active := v.active ++ [v.trash.get ⟨idx, h⟩], trash := v.trash.eraseIdx idx }
  else v

/-- Number of occurrences of a record in a record list. -/
def occCount (r : RawWallet) (l : List RawWallet) : Nat :=
  (l.filter fun x => x = r).length

/-! ### Session proposal approval
(`src/cli.js` lines 1058-1105, identical logic in `src/unnamed/part_002`
lines 25-55). -/

/-- One requested namespace entry of a `SessionProposal`
(`requiredNamespaces[key]` / `optionalNamespaces[key]`): `none` models a
missing (`undefined`) field of the JS object. -/
structure NsRequest where
  chains : Option (List String)
  methods : Option (List String)
  events : Option (List String)
deriving DecidableEq

/-- One approved namespace entry as passed to `client.approve`. -/
structure NsApproved where
  accounts : List String
  methods : List String
  events : List String
deriving DecidableEq

/-- JS object access `obj[key]`: the (unique) entry with the key, modelled
on association lists as the first match. -/
def lookupKey {β : Type} (k : String) : List (String × β) → Option β
  | [] => none
  | p :: rest => if p.1 = k then some p.2 else lookupKey k rest

/-- The JS object spread `{ ...required, ...optional }`: keys of
`required` in order with values overridden by `optional` on collision,
followed by the keys only `optional` has. -/
def spreadMerge (required extra : List (String × NsRequest)) : List (String × NsRequest) :=
  (required.map fun p =>
    match lookupKey p.1 extra with
    | some v => (p.1, v)
    | none => p)
  ++ extra.filter fun p => (lookupKey p.1 required).isNone

/-- The body of the `Object.keys(allNamespaces).forEach` loop: accounts are
`chain + ":" + signer.address` for each chain of the entry, defaulting to
`["eip155:1"]` when the `chains` field is absent; methods and events are
the entry's own lists (empty when absent). -/
def approveOne (address : String) (ns : NsRequest) : NsApproved :=
  { accounts := (ns.chains.getD ["eip155:1"]).map fun chain => chain ++ ":" ++ address
    methods := ns.methods.getD []
    events := ns.events.getD [] }

/-- The `namespaces` object built by the `session_proposal` handler from
the proposal's required and optional namespaces and the bound signer. -/
def approveNamespaces (required extra : List (String × NsRequest)) (address : String) :
    List (String × NsApproved) :=
  (spreadMerge required extra).map fun p => (p.1, approveOne address p.2)

/-- The chain list the handler uses for a namespace key: the merged
entry's `chains`, defaulting to `["eip155:1"]`. -/
def effectiveChains (required extra : List (String × NsRequest)) (k : String) : List String :=
  match lookupKey k (spreadMerge required extra) with
  | some ns => ns.chains.getD ["eip155:1"]
  | none => []

/-! ### Hex payload handling
(models of `ethers.isHexString`, `ethers.getBytes`, `ethers.toUtf8String`
as used by the `personal_sign` branch). -/

/-- Value of one hexadecimal digit character, if any. -/
def hexVal? (c : Char) : Option Nat :=
  if '0' ≤ c ∧ c ≤ '9' then some (c.toNat - '0'.toNat)
  else if 'a' ≤ c ∧ c ≤ 'f' then some (c.toNat - 'a'.toNat + 10)
  else if 'A' ≤ c ∧ c ≤ 'F' then some (c.toNat - 'A'.toNat + 10)
  else none

/-- Model of `ethers.isHexString(s)`: the string is `0x` followed by hex
digits only. -/
def isHexString (s : String) : Bool :=
  match s.data with
  | '0' :: 'x' :: rest => rest.all fun c => (hexVal? c).isSome
  | _ => false

/-- Digit pairs to byte values; `none` on an odd count or a bad digit. -/
def hexPairsToBytes : List Char → Option (List Nat)
  | [] => some []
  | [_] => none
  | c₁ :: c₂ :: rest =>
    match hexVal? c₁, hexVal? c₂, hexPairsToBytes rest with
    | some hi, some lo, some bs => some ((16 * hi + lo) :: bs)
    | _, _, _ => none

/-- Model of `ethers.getBytes(s)`: decode a `0x`-prefixed hex string to
its byte list; `none` models the thrown `invalid BytesLike` error. -/
def getBytes? (s : String) : Option (List Nat) :=
  match s.data with
  | '0' :: 'x' :: rest => hexPairsToBytes rest
  | _ => none

/-- Decode a UTF-8 byte sequence to characters; `none` on any invalid
sequence — a bad lead byte, a missing or bad continuation byte, an
overlong encoding, a surrogate, or an out-of-range code point — the
cases where `ethers.toUtf8String`'s default error strategy throws. -/
def utf8Decode? : List Nat → Option (List Char)
  | [] => some []
  | b₁ :: rest =>
    if b₁ < 0x80 then
      (utf8Decode? rest).map fun cs => Char.ofNat b₁ :: cs
    else if 0xc2 ≤ b₁ ∧ b₁ ≤ 0xdf then
      match rest with
      | b₂ :: rest₂ =>
        if 0x80 ≤ b₂ ∧ b₂ ≤ 0xbf then
          (utf8Decode? rest₂).map fun cs =>
            Char.ofNat ((b₁ - 0xc0) * 0x40 + (b₂ - 0x80)) :: cs
        else none
      | [] => none
    else if 0xe0 ≤ b₁ ∧ b₁ ≤ 0xef then
      match rest with
      | b₂ :: b₃ :: rest₃ =>
        if 0x80 ≤ b₂ ∧ b₂ ≤ 0xbf ∧ 0x80 ≤ b₃ ∧ b₃ ≤ 0xbf then
          let cp := (b₁ - 0xe0) * 0x1000 + (b₂ - 0x80) * 0x40 + (b₃ - 0x80)
          if cp < 0x800 ∨ (0xd800 ≤ cp ∧ cp ≤ 0xdfff) then none
          else (utf8Decode? rest₃).map fun cs => Char.ofNat cp :: cs
        else none
      | _ => none
    else if 0xf0 ≤ b₁ ∧ b₁ ≤ 0xf4 then
      match rest with
      | b₂ :: b₃ :: b₄ :: rest₄ =>
        if 0x80 ≤ b₂ ∧ b₂ ≤ 0xbf ∧ 0x80 ≤ b₃ ∧ b₃ ≤ 0xbf ∧ 0x80 ≤ b₄ ∧ b₄ ≤ 0xbf then
          let cp := (b₁ - 0xf0) * 0x40000 + (b₂ - 0x80) * 0x1000 +
            (b₃ - 0x80) * 0x40 + (b₄ - 0x80)
          if cp < 0x10000 ∨ 0x10ffff < cp then none
          else (utf8Decode? rest₄).map fun cs => Char.ofNat cp :: cs
        else none
      | _ => none
    else none

/-- Model of `ethers.toUtf8String`: decode the bytes as UTF-8, `none`
modelling the throw on invalid byte sequences (e.g. the payload `0xff`
or a binary hash). -/
def toUtf8String? (bs : List Nat) : Option String :=
  (utf8Decode? bs).map fun cs => String.mk cs

/-! ### The `session_request` handler and local flows as event traces
(`src/cli.js` lines 1107-1183, 719-866, 868-991; the headless prototype
handler is `src/unnamed/part_002` lines 58-105).

Each interactive flow is embedded as a function from its inputs (the
bound signer, the peer's request, the user's prompt answers) to the list
of externally visible events it performs, in order: prompts shown,
console output, signatures computed, transactions broadcast, and
responses sent back over the transport.  A `confirm` event is a yes/no
`rawlist` prompt; `select` and `inputPrompt` are choice menus and free
text fields. -/

/-- What was passed to `signer.signMessage`: decoded bytes or raw text. -/
inductive SignInput where
  | bytes (bs : List Nat)
  | text (s : String)
deriving DecidableEq

/-- The transaction object built from `request.params[0]`
(`{ to, value, data, gasLimit: gas }`). -/
structure TxParams where
  toAddr : String
  value : String
  data : String
  gas : String
deriving DecidableEq

/-- A result value sent back to the peer.  Signatures and hashes are
symbolic: they record the key and payload (and RPC endpoint) that
produced them. -/
inductive RpcResult where
  | sig (privateKey : String) (input : SignInput)
  | typedSig (privateKey domain types message : String)
  | txHash (rpcUrl privateKey : String) (tx : TxParams)
deriving DecidableEq

/-- Body of a `client.respond` call: a JSON-RPC `result` or a structured
`error` object with `code` and `message` fields. -/
inductive RespBody where
  | result (r : RpcResult)
  | error (code : Nat) (message : String)
deriving DecidableEq

/-- An execution performed for a session request. -/
inductive ExecAction where
  | signedMessage (input : SignInput)
  | signedTyped (domain types message : String)
  | sentTx (rpcUrl : String) (tx : TxParams)
deriving DecidableEq

/-- Externally visible events of the interactive flows. -/
inductive Ev where
  | confirm (message : String)
  | select (message : String)
  | inputPrompt (message : String)
  | display (text : String)
  | exec (id : Nat) (a : ExecAction)
  | localBroadcast (rpcUrl dest amount : String)
  | respond (topic : String) (id : Nat) (body : RespBody)
  | disconnect
deriving DecidableEq

/-- The typed-data payload of `request.params[1]`: either it parses to
`domain`/`types`/`message` components or `JSON.parse` throws on it. -/
inductive TypedPayload where
  | parsed (domain types message : String)
  | malformed (raw : String)
deriving DecidableEq

/-- The `request.params` array, shaped per method. -/
inductive ReqParams where
  | personalSign (message : String)
  | typedData (address : String) (payload : TypedPayload)
  | sendTx (tx : TxParams)
  | otherParams
deriving DecidableEq

/-- An inbound `session_request` event: `{ topic, id, params: { request } }`. -/
structure SRequest where
  topic : String
  id : Nat
  method : String
  params : ReqParams
deriving DecidableEq

/-- The user's answers to the prompts of one `session_request` handling:
the `Approve <method> request?` answer and, for `eth_sendTransaction`,
the additional `Send transaction ...?` answer. -/
structure UserChoices where
  approveRequest : Bool
  approveTx : Bool
deriving DecidableEq

/-- Whether the second character list occurs at the head of the first
argument's start; first argument is the needle. -/
def matchesAt : List Char → List Char → Bool
  | [], _ => true
  | _ :: _, [] => false
  | c :: cs, d :: ds => c = d && matchesAt cs ds

/-- Auxiliary scan for `containsSubstr`. -/
def containsSubstrAux (needle : List Char) : List Char → Bool
  | [] => needle.isEmpty
  | c :: cs => matchesAt needle (c :: cs) || containsSubstrAux needle cs

/-- Whether `needle` occurs as a contiguous substring of `hay`. -/
def containsSubstr (hay needle : String) : Bool :=
  containsSubstrAux needle.data hay.data

/-- Model of `String.startsWith` (used for the
`request.method.startsWith("eth_signTypedData")` dispatch). -/
def strStartsWith (s pre : String) : Bool :=
  matchesAt pre.data s.data

/-- The hard-coded RPC endpoint (`src/cli.js` line 23). -/
def RPC_URL : String := "https://eth.llamarpc.com"

/-- The message of the per-request approval prompt. -/
def approvalPromptMessage (r : SRequest) : String :=
  "Approve " ++ r.method ++ " request?"

/-- Symbolic stand-in for the `message` of an exception thrown by a
library call (`ethers` decode errors, `JSON.parse` errors); its exact
text is irrelevant to every claim. -/
def libErrorMessage : String := "external library error"

/-- The approved part of the `session_request` handler of `src/cli.js`
(the `try` block after `confirmSign.sign === 'Yes'`): dispatch on the
method string; the `catch` swallows errors after logging, sending no
response; an unrecognised method leaves `result` undefined, so no
response is sent either.  For a hex `personal_sign` payload the readable
text is computed (and logged) before `signMessage` is called, so when
the bytes are not valid UTF-8 the `toUtf8String` throw lands in the
`catch` first: nothing is displayed, signed, or responded. -/
def handleApproved (signer : Wallet) (user : UserChoices) (r : SRequest) : List Ev :=
  if r.method = "personal_sign" then
    match r.params with
    | .personalSign msg =>
      if isHexString msg then
        match getBytes? msg with
        | some bs =>
          match toUtf8String? bs with
          | some readable =>
            [.display ("Signing: \"" ++ readable ++ "\""),
             .exec r.id (.signedMessage (.bytes bs)),
             .respond r.topic r.id (.result (.sig signer.privateKey (.bytes bs)))]
          | none => [.display ("Error signing: " ++ libErrorMessage)]
        | none => [.display ("Error signing: " ++ libErrorMessage)]
      else
        [.display ("Signing: \"" ++ msg ++ "\""),
         .exec r.id (.signedMessage (.text msg)),
         .respond r.topic r.id (.result (.sig signer.privateKey (.text msg)))]
    | _ => [.display ("Error signing: " ++ libErrorMessage)]
  else if strStartsWith r.method "eth_signTypedData" then
    match r.params with
    | .typedData _ (.parsed d t m) =>
      [.exec r.id (.signedTyped d t m),
       .respond r.topic r.id (.result (.typedSig signer.privateKey d t m))]
    | _ => [.display ("Error signing: " ++ libErrorMessage)]
  else if r.method = "eth_sendTransaction" then
    match r.params with
    | .sendTx tx =>
      .display "Processing Transaction" ::
      .confirm ("Send transaction to " ++ tx.toAddr ++ " with value " ++ tx.value ++ "?") ::
      (if user.approveTx then
        [.exec r.id (.sentTx RPC_URL tx),
         .respond r.topic r.id (.result (.txHash RPC_URL signer.privateKey tx))]
      else [.display "Transaction cancelled."])
    | _ => [.display ("Error signing: " ++ libErrorMessage)]
  else []

/-- The full `session_request` handler of `src/cli.js`: the approval
prompt comes first; `No` logs a line and returns without responding. -/
def handleSessionRequest (signer : Wallet) (user : UserChoices) (r : SRequest) : List Ev :=
  .confirm (approvalPromptMessage r) ::
  (if user.approveRequest then handleApproved signer user r
   else [.display "Request rejected locally."])

/-- The `session_request` handler of the headless prototype
(`src/unnamed/part_002`): no prompts at all; every failure path responds
with a structured error object `{ code: 5000, message }`. -/
def handleSessionRequestHeadless (w : Wallet) (r : SRequest) : List Ev :=
  if r.method = "personal_sign" then
    match r.params with
    | .personalSign msg =>
      if isHexString msg then
        match getBytes? msg with
        | some bs =>
          match toUtf8String? bs with
          | some readable =>
            [.display ("Signing Message: " ++ readable),
             .exec r.id (.signedMessage (.bytes bs)),
             .respond r.topic r.id (.result (.sig w.privateKey (.bytes bs)))]
          | none => [.respond r.topic r.id (.error 5000 libErrorMessage)]
        | none => [.respond r.topic r.id (.error 5000 libErrorMessage)]
      else
        [.display ("Signing Message: " ++ msg),
         .exec r.id (.signedMessage (.text msg)),
         .respond r.topic r.id (.result (.sig w.privateKey (.text msg)))]
    | _ => [.respond r.topic r.id (.error 5000 libErrorMessage)]
  else if r.method = "eth_signTypedData" ∨ r.method = "eth_signTypedData_v4" then
    match r.params with
    | .typedData _ (.parsed d t m) =>
      [.exec r.id (.signedTyped d t m),
       .respond r.topic r.id (.result (.typedSig w.privateKey d t m))]
    | _ => [.respond r.topic r.id (.error 5000 libErrorMessage)]
  else
    [.respond r.topic r.id (.error 5000 ("Method " ++ r.method ++ " not supported"))]

/-- A whole session: each inbound request is handled with its own fresh
prompt answers (`users k` is what the user answers for the `k`-th
request; nothing is carried over between requests). -/
def processSession (signer : Wallet) (users : Nat → UserChoices) : List SRequest → List Ev
  | [] => []
  | r :: rs =>
    handleSessionRequest signer (users 0) r ++
      processSession signer (fun n => users (n + 1)) rs

/-- Whether an event is a response correlated to request id `n`. -/
def isRespondFor (n : Nat) : Ev → Bool
  | .respond _ i _ => i = n
  | _ => false

/-- Whether an event is an execution for request id `n`. -/
def isExecFor (n : Nat) : Ev → Bool
  | .exec i _ => i = n
  | _ => false

/-- Whether an event is any response. -/
def isRespond : Ev → Bool
  | .respond _ _ _ => true
  | _ => false

/-- Whether an event is any execution (signature or broadcast) done for a
session request. -/
def isExecEv : Ev → Bool
  | .exec _ _ => true
  | _ => false

/-- Whether an event is an `eth_sendTransaction` broadcast. -/
def isSentTx : Ev → Bool
  | .exec _ (.sentTx _ _) => true
  | _ => false

/-- Whether an event is a yes/no confirmation prompt. -/
def isConfirm : Ev → Bool
  | .confirm _ => true
  | _ => false

/-- Whether an event is a local (transfer/swap) broadcast. -/
def isLocalBroadcast : Ev → Bool
  | .localBroadcast _ _ _ => true
  | _ => false

/-- Responses for id `n` in a trace. -/
def respondCount (n : Nat) (tr : List Ev) : Nat :=
  (tr.filter (isRespondFor n)).length

/-- Executions for id `n` in a trace. -/
def execCount (n : Nat) (tr : List Ev) : Nat :=
  (tr.filter (isExecFor n)).length

/-- RPC endpoints of the `NETWORKS` table (`src/cli.js` lines 159-164). -/
def NETWORKS_RPC : List (String × String) :=
  [("ethereum", "https://eth.llamarpc.com"),
   ("bsc", "https://bsc-dataseed.binance.org"),
   ("polygon", "https://polygon-rpc.com"),
   ("celo", "https://forno.celo.org")]

/-- The asset chosen in the `transferAsset` menu. -/
inductive AssetChoice where
  | native
  | predefinedToken (symbol address : String) (decimals : Nat)
  | customToken (address : String)
deriving DecidableEq

/-- The choices the user makes while walking the `transferAsset` flow. -/
structure TransferInput where
  networkKey : String
  asset : AssetChoice
  hasOtherWallets : Bool
  recipient : String
  amount : String
deriving DecidableEq

/-- Model of `transferAsset()` (`src/cli.js` lines 719-866): menus select
the sender, the network and the asset (a custom token also asks for its
contract address; when other wallets exist a destination-type menu is
shown), then the recipient and amount are entered — and the transaction
is broadcast over the selected network's RPC immediately, with no yes/no
confirmation prompt anywhere in the flow. -/
def transferAsset (inp : TransferInput) : List Ev :=
  let rpc := (lookupKey inp.networkKey NETWORKS_RPC).getD ""
  [Ev.select "Select Sender Wallet:",
   Ev.select "Select Network",
   Ev.select "What do you want to send?"]
  ++ (match inp.asset with
      | .customToken _ => [Ev.inputPrompt "Enter Token Contract Address:"]
      | _ => [])
  ++ (if inp.hasOtherWallets then [Ev.select "Send to:"] else [])
  ++ [Ev.inputPrompt "Recipient Address:",
      Ev.inputPrompt "Amount to send:",
      Ev.display "Preparing to send",
      Ev.localBroadcast rpc inp.recipient inp.amount]

/-- The choices the user makes while walking the `swapToken` flow,
together with the on-chain allowance the flow reads back. -/
structure SwapInput where
  networkKey : String
  tokenSymbol : String
  routerAddress : String
  walletAddress : String
  amountIn : Nat
  allowance : Nat
  approveAllowance : Bool
deriving DecidableEq

/-- Model of `swapToken()` (`src/cli.js` lines 868-991): wallet, network
and token menus, then the amount; only when the router allowance is
insufficient is a yes/no approval prompt shown (for the ERC-20 `approve`
transaction); the swap itself is then broadcast with no further
confirmation — and with a sufficient allowance, with no confirmation at
all. -/
def swapToken (inp : SwapInput) : List Ev :=
  let rpc := (lookupKey inp.networkKey NETWORKS_RPC).getD ""
  let swapEvents : List Ev :=
    [Ev.display "Swapping...",
     Ev.localBroadcast rpc inp.routerAddress (toString inp.amountIn)]
  [Ev.select "Select Wallet:",
   Ev.select "Select Network",
   Ev.select "Select Token to Sell:",
   Ev.inputPrompt ("Amount of " ++ inp.tokenSymbol ++ " to swap:")]
  ++ (if inp.allowance < inp.amountIn then
        Ev.confirm ("Router needs approval to spend your " ++ inp.tokenSymbol ++ ". Approve?") ::
        (if inp.approveAllowance then
          Ev.localBroadcast rpc inp.routerAddress "approve(max)" :: swapEvents
         else [])
      else swapEvents)

/-- Whether an unlock outcome is a thrown error. -/
def UnlockOutcome.isThrown : UnlockOutcome → Bool
  | .ok _ => false
  | .thrown _ _ => true

/-! ### Claim theorems and supporting lemmas -/

theorem unlockWalletsLoop_ring (password : String) (raw : List RawWallet)
    (acc : List DecryptedWallet) :
    (unlockWalletsLoop password raw acc).ring = acc ++ decryptedBeforeFailure password raw := by
  induction raw generalizing acc with
  | nil => simp [unlockWalletsLoop, decryptedBeforeFailure, UnlockOutcome.ring]
  | cons r rs ih =>
    cases hp : r.payload with
    | plain sk => simp [unlockWalletsLoop, decryptedBeforeFailure, UnlockOutcome.ring, hp]
    | encrypted b =>
      cases hd : fromEncryptedJson b password with
      | none => simp [unlockWalletsLoop, decryptedBeforeFailure, UnlockOutcome.ring, hp, hd]
      | some w =>
        simp only [unlockWalletsLoop, decryptedBeforeFailure, hp, hd, ih]
        simp

theorem unlockWalletsLoop_thrown_iff (password : String) (raw : List RawWallet)
    (acc : List DecryptedWallet) :
    (∃ e r, unlockWalletsLoop password raw acc = .thrown e r) ↔
      someRecordFails password raw = true := by
  induction raw generalizing acc with
  | nil =>
    simp [unlockWalletsLoop, someRecordFails]
  | cons r rs ih =>
    cases hp : r.payload with
    | plain sk =>
      simp [unlockWalletsLoop, someRecordFails, hp]
    | encrypted b =>
      cases hd : fromEncryptedJson b password with
      | none => simp [unlockWalletsLoop, someRecordFails, hp, hd]
      | some w =>
        simp only [unlockWalletsLoop, hp, hd]
        rw [ih]
        simp [someRecordFails, hp, hd]

theorem occCount_append (r : RawWallet) (l₁ l₂ : List RawWallet) :
    occCount r (l₁ ++ l₂) = occCount r l₁ + occCount r l₂ := by
  simp [occCount]

theorem occCount_cons (r x : RawWallet) (xs : List RawWallet) :
    occCount r (x :: xs) = (if x = r then 1 else 0) + occCount r xs := by
  by_cases hx : x = r
  · simp [occCount, List.filter_cons, hx]
    omega
  · simp [occCount, List.filter_cons, hx]

theorem occCount_pos_of_mem (r : RawWallet) (l : List RawWallet) (h : r ∈ l) :
    1 ≤ occCount r l := by
  induction l with
  | nil => simp at h
  | cons x xs ih =>
    rcases List.mem_cons.1 h with h | h
    · simp [occCount_cons, h]
    · have := ih h
      rw [occCount_cons]
      omega

theorem occCount_eraseIdx (r : RawWallet) (l : List RawWallet) (i : Nat) (h : i < l.length)
    (hr : l.get ⟨i, h⟩ = r) :
    occCount r (l.eraseIdx i) = occCount r l - 1 := by
  induction l generalizing i with
  | nil => simp at h
  | cons x xs ih =>
    cases i with
    | zero =>
      simp only [List.get] at hr
      subst hr
      simp [List.eraseIdx, occCount_cons]
    | succ n =>
      simp only [List.get] at hr
      have hn : n < xs.length := by simpa using h
      have hxs := ih n hn hr
      have hmem : r ∈ xs := hr ▸ List.get_mem xs n hn
      have hpos := occCount_pos_of_mem r xs hmem
      simp only [List.eraseIdx, occCount_cons, hxs]
      omega

theorem occCount_eq_zero_iff (r : RawWallet) (l : List RawWallet) :
    occCount r l = 0 ↔ r ∉ l := by
  induction l with
  | nil => simp [occCount]
  | cons x xs ih =>
    rw [occCount_cons]
    by_cases hx : x = r
    · subst hx
      simp [List.mem_cons]
    · have hrx : r ≠ x := fun h => hx h.symm
      simp [hx, hrx, ih]

theorem lookupKey_map_approve (l : List (String × NsRequest)) (address k : String) :
    lookupKey k (l.map fun p => (p.1, approveOne address p.2)) =
      (lookupKey k l).map (approveOne address) := by
  induction l with
  | nil => rfl
  | cons p rest ih =>
    by_cases h : p.1 = k <;> simp [lookupKey, h, ih]

theorem lookupKey_filter (l : List (String × NsRequest)) (k : String)
    (f : String × NsRequest → Bool) (hf : ∀ p : String × NsRequest, p.1 = k → f p = true) :
    lookupKey k (l.filter f) = lookupKey k l := by
  induction l with
  | nil => rfl
  | cons p rest ih =>
    by_cases h : p.1 = k
    · rw [List.filter_cons, hf p h]
      simp [lookupKey, h]
    · rw [List.filter_cons]
      by_cases hfp : f p
      · simp [hfp, lookupKey, h, ih]
      · simp [hfp, lookupKey, h, ih]

theorem lookupKey_append {β : Type} (k : String) (l₁ l₂ : List (String × β)) :
    lookupKey k (l₁ ++ l₂) =
      match lookupKey k l₁ with
      | some v => some v
      | none => lookupKey k l₂ := by
  induction l₁ with
  | nil => simp [lookupKey]
  | cons p rest ih =>
    by_cases h : p.1 = k <;> simp [lookupKey, h, ih]

theorem lookupKey_spreadMerge (required extra : List (String × NsRequest)) (k : String) :
    lookupKey k (spreadMerge required extra) =
      match lookupKey k required with
      | some v => some ((lookupKey k extra).getD v)
      | none => lookupKey k extra := by
  rw [spreadMerge, lookupKey_append]
  have hmap : lookupKey k (required.map fun p =>
      match lookupKey p.1 extra with
      | some v => (p.1, v)
      | none => p) =
      (lookupKey k required).map fun v => (lookupKey k extra).getD v := by
    induction required with
    | nil => rfl
    | cons p rest ih =>
      by_cases h : p.1 = k
      · subst h
        cases hx : lookupKey p.1 extra <;> simp [lookupKey, hx]
      · cases hx : lookupKey p.1 extra <;> simp [lookupKey, h, hx, ih]
  rw [hmap]
  cases hr : lookupKey k required with
  | some v => simp
  | none =>
    simp only [Option.map_none]
    exact lookupKey_filter extra k _ fun p hp => by simp [hp, hr]

theorem append_colon_right_inj (c₀ c a b : String) (hlen : a.length = b.length)
    (h : c₀ ++ ":" ++ a = c ++ ":" ++ b) : a = b := by
  have hd := congrArg String.data h
  simp only [String.data_append] at hd
  have hlen' : a.data.length = b.data.length := hlen
  have hinj := List.append_inj' hd hlen'
  exact String.ext hinj.2

/-- C1: every account string in an approved namespace is
`chain ++ ":" ++ addr` for a chain of that namespace's (defaulted) chain
list, every such chain yields its account, and no string of the bound
address's length other than the bound address itself can stand in the
address position of any account — in particular no other identity's
address ever appears there. -/
theorem session_accounts_only_bound_identity
    (required extra : List (String × NsRequest)) (addr k : String) (ns : NsApproved)
    (h : lookupKey k (approveNamespaces required extra addr) = some ns) :
    (∀ a ∈ ns.accounts, ∃ c ∈ effectiveChains required extra k, a = c ++ ":" ++ addr) ∧
    (∀ c ∈ effectiveChains required extra k, c ++ ":" ++ addr ∈ ns.accounts) ∧
    (∀ a ∈ ns.accounts, ∀ other c : String,
        other.length = addr.length → other ≠ addr → a ≠ c ++ ":" ++ other) := by
  rw [approveNamespaces, lookupKey_map_approve] at h
  cases hm : lookupKey k (spreadMerge required extra) with
  | none =>
    rw [hm] at h
    simp at h
  | some nsr =>
    rw [hm] at h
    simp only [Option.map_some'] at h
    have hns : ns = approveOne addr nsr := by
      injection h with h'
      exact h'.symm
    subst hns
    have hch : effectiveChains required extra k = nsr.chains.getD ["eip155:1"] := by
      rw [effectiveChains, hm]
    refine ⟨?_, ?_, ?_⟩
    · intro a ha
      rw [hch]
      rcases List.mem_map.1 ha with ⟨c, hc, rfl⟩
      exact ⟨c, hc, rfl⟩
    · intro c hc
      rw [hch] at hc
      exact List.mem_map.2 ⟨c, hc, rfl⟩
    · intro a ha other c hlen hne heq
      rcases List.mem_map.1 ha with ⟨c₀, _, rfl⟩
      exact hne (append_colon_right_inj c c₀ other addr hlen heq.symm)

/-- Witness for C1 at the spec's own scenario: namespace `eip155`
requesting chains `eip155:1` and `eip155:56`, bound address `0xBB`. -/
theorem session_accounts_only_bound_identity_witness :
    "eip155:56" ++ ":" ++ "0xBB" ∈
      (NsApproved.mk ["eip155:1:0xBB", "eip155:56:0xBB"] ["personal_sign"] []).accounts :=
  ((session_accounts_only_bound_identity
      [("eip155", ⟨some ["eip155:1", "eip155:56"], some ["personal_sign"], some []⟩)]
      [] "0xBB" "eip155" ⟨["eip155:1:0xBB", "eip155:56:0xBB"], ["personal_sign"], []⟩
      (by decide)).2.1) "eip155:56" (by decide)

/-- C7 (counterexample): the peer's required namespaces list
`eth_sendTransaction` for key `eip155` and its optional namespaces list
`personal_sign` for the same key; the approved namespace's methods are
`["personal_sign"]` alone — the union claim fails because the object
spread `{ ...required, ...optional }` lets the optional entry override the
required one wholesale, dropping the required method. -/
theorem session_methods_union_counterexample :
    (lookupKey "eip155"
        [("eip155", NsRequest.mk (some ["eip155:1"]) (some ["eth_sendTransaction"]) (some []))]).map
      (fun n => n.methods.getD []) = some ["eth_sendTransaction"] ∧
    (lookupKey "eip155"
        (approveNamespaces
          [("eip155", NsRequest.mk (some ["eip155:1"]) (some ["eth_sendTransaction"]) (some []))]
          [("eip155", NsRequest.mk (some ["eip155:1"]) (some ["personal_sign"]) (some []))]
          "0xAA")).map NsApproved.methods = some ["personal_sign"] := by
  constructor
  · rfl
  · rfl

/-- C7 (amended): the approved namespace's methods and events come from
the optional entry alone when the key appears in the optional namespaces,
and from the required entry otherwise; nothing is invented locally, but
when a key appears in both maps the required entry's methods/events are
dropped rather than unioned. -/
theorem session_methods_events_from_one_entry
    (required extra : List (String × NsRequest)) (addr k : String) (ns : NsApproved)
    (h : lookupKey k (approveNamespaces required extra addr) = some ns) :
    match lookupKey k extra with
    | some no => ns.methods = no.methods.getD [] ∧ ns.events = no.events.getD []
    | none =>
      match lookupKey k required with
      | some nr => ns.methods = nr.methods.getD [] ∧ ns.events = nr.events.getD []
      | none => False := by
  rw [approveNamespaces, lookupKey_map_approve, lookupKey_spreadMerge] at h
  cases hr : lookupKey k required with
  | some nr =>
    rw [hr] at h
    cases ho : lookupKey k extra with
    | some no =>
      rw [ho] at h
      simp only [Option.getD, Option.map_some'] at h
      injection h with h'
      rw [← h']
      exact ⟨rfl, rfl⟩
    | none =>
      rw [ho] at h
      simp only [Option.getD, Option.map_some'] at h
      injection h with h'
      rw [← h']
      exact ⟨rfl, rfl⟩
  | none =>
    rw [hr] at h
    cases ho : lookupKey k extra with
    | some no =>
      rw [ho] at h
      simp only [Option.map_some'] at h
      injection h with h'
      rw [← h']
      exact ⟨rfl, rfl⟩
    | none =>
      rw [ho] at h
      simp at h

/-- Witness for the amended C7: with `eip155` in both maps, the approved
methods are exactly the optional entry's. -/
theorem session_methods_events_from_one_entry_witness :
    (NsApproved.mk ["eip155:1:0xAA"] ["personal_sign"] []).methods =
      (some ["personal_sign"] : Option (List String)).getD [] ∧
    (NsApproved.mk ["eip155:1:0xAA"] ["personal_sign"] []).events =
      (some ([] : List String) : Option (List String)).getD [] :=
  session_methods_events_from_one_entry
    [("eip155", NsRequest.mk (some ["eip155:1"]) (some ["eth_sendTransaction"]) (some []))]
    [("eip155", NsRequest.mk (some ["eip155:1"]) (some ["personal_sign"]) (some []))]
    "0xAA" "eip155" ⟨["eip155:1:0xAA"], ["personal_sign"], []⟩ (by decide)

theorem respondCount_append (n : Nat) (t₁ t₂ : List Ev) :
    respondCount n (t₁ ++ t₂) = respondCount n t₁ + respondCount n t₂ := by
  simp [respondCount]

theorem execCount_append (n : Nat) (t₁ t₂ : List Ev) :
    execCount n (t₁ ++ t₂) = execCount n t₁ + execCount n t₂ := by
  simp [execCount]

theorem handleApproved_facts (signer : Wallet) (user : UserChoices) (r : SRequest) (n : Nat) :
    respondCount n (handleApproved signer user r) ≤ 1 ∧
    execCount n (handleApproved signer user r) ≤ 1 ∧
    (respondCount n (handleApproved signer user r) ≠ 0 → r.id = n) ∧
    (execCount n (handleApproved signer user r) ≠ 0 → r.id = n) := by
  by_cases hid : r.id = n
  · unfold handleApproved
    repeat' split
    all_goals
      simp [respondCount, execCount, isRespondFor, isExecFor, List.filter_cons, hid]
  · unfold handleApproved
    repeat' split
    all_goals
      simp [respondCount, execCount, isRespondFor, isExecFor, List.filter_cons, hid]

theorem handleSessionRequest_facts (signer : Wallet) (user : UserChoices) (r : SRequest)
    (n : Nat) :
    respondCount n (handleSessionRequest signer user r) ≤ 1 ∧
    execCount n (handleSessionRequest signer user r) ≤ 1 ∧
    (respondCount n (handleSessionRequest signer user r) ≠ 0 →
      r.id = n ∧ user.approveRequest = true) ∧
    (execCount n (handleSessionRequest signer user r) ≠ 0 →
      r.id = n ∧ user.approveRequest = true) := by
  have h := handleApproved_facts signer user r n
  unfold handleSessionRequest
  by_cases ha : user.approveRequest
  · simp only [ha, if_true]
    simp only [respondCount, execCount, List.filter_cons, isRespondFor, isExecFor] at h ⊢
    exact ⟨h.1, h.2.1, fun hc => ⟨h.2.2.1 hc, trivial⟩, fun hc => ⟨h.2.2.2 hc, trivial⟩⟩
  · simp only [ha, if_false]
    simp [respondCount, execCount, List.filter_cons, isRespondFor, isExecFor]

theorem processSession_count_zero (signer : Wallet) (users : Nat → UserChoices)
    (reqs : List SRequest) (n : Nat) (h : ∀ r ∈ reqs, r.id ≠ n) :
    respondCount n (processSession signer users reqs) = 0 ∧
    execCount n (processSession signer users reqs) = 0 := by
  induction reqs generalizing users with
  | nil => simp [processSession, respondCount, execCount]
  | cons r rs ih =>
    have hr := h r (List.mem_cons_self r rs)
    have hfacts := handleSessionRequest_facts signer (users 0) r n
    have htail := ih (fun m => users (m + 1)) fun q hq => h q (List.mem_cons_of_mem r hq)
    have hhead₁ : respondCount n (handleSessionRequest signer (users 0) r) = 0 := by
      by_contra hc
      exact hr (hfacts.2.2.1 hc).1
    have hhead₂ : execCount n (handleSessionRequest signer (users 0) r) = 0 := by
      by_contra hc
      exact hr (hfacts.2.2.2 hc).1
    simp [processSession, respondCount_append, execCount_append, hhead₁, hhead₂, htail.1,
      htail.2]

/-- C4: over a whole session whose inbound requests have distinct ids, at
most one response and at most one execution ever happen for any request
id, and a response for an id can only exist when the request carrying
that id was approved by its own fresh prompt answer. -/
theorem signing_request_response_discipline (signer : Wallet) (users : Nat → UserChoices)
    (reqs : List SRequest) (hnodup : (reqs.map SRequest.id).Nodup) (n : Nat) :
    respondCount n (processSession signer users reqs) ≤ 1 ∧
    execCount n (processSession signer users reqs) ≤ 1 ∧
    (respondCount n (processSession signer users reqs) ≠ 0 →
      ∃ k, ∃ hk : k < reqs.length,
        (reqs.get ⟨k, hk⟩).id = n ∧ (users k).approveRequest = true) := by
  induction reqs generalizing users with
  | nil =>
    simp [processSession, respondCount, execCount]
  | cons r rs ih =>
    have hnodup' : (r.id :: rs.map SRequest.id).Nodup := by simpa using hnodup
    have hnd := List.nodup_cons.1 hnodup'
    have hfacts := handleSessionRequest_facts signer (users 0) r n
    by_cases hid : r.id = n
    · have hzero : ∀ q ∈ rs, q.id ≠ n := by
        intro q hq hqn
        exact hnd.1 (List.mem_map.2 ⟨q, hq, hqn.trans hid.symm⟩)
      have htail := processSession_count_zero signer (fun m => users (m + 1)) rs n hzero
      refine ⟨?_, ?_, ?_⟩
      · rw [processSession, respondCount_append, htail.1]
        have := hfacts.1
        omega
      · rw [processSession, execCount_append, htail.2]
        have := hfacts.2.1
        omega
      · intro hne
        rw [processSession, respondCount_append, htail.1] at hne
        have hh : respondCount n (handleSessionRequest signer (users 0) r) ≠ 0 := by omega
        exact ⟨0, by simp, hid, (hfacts.2.2.1 hh).2⟩
    · have hhead₁ : respondCount n (handleSessionRequest signer (users 0) r) = 0 := by
        by_contra hc
        exact hid (hfacts.2.2.1 hc).1
      have hhead₂ : execCount n (handleSessionRequest signer (users 0) r) = 0 := by
        by_contra hc
        exact hid (hfacts.2.2.2 hc).1
      have htail := ih (fun m => users (m + 1)) hnd.2
      refine ⟨?_, ?_, ?_⟩
      · rw [processSession, respondCount_append, hhead₁]
        simpa using htail.1
      · rw [processSession, execCount_append, hhead₂]
        simpa using htail.2.1
      · intro hne
        rw [processSession, respondCount_append, hhead₁] at hne
        rcases htail.2.2 (by simpa using hne) with ⟨k, hk, hkid, hkap⟩
        exact ⟨k + 1, by simpa using Nat.succ_lt_succ hk, hkid, hkap⟩

theorem UnlockOutcome.isThrown_eq_true_iff (o : UnlockOutcome) :
    o.isThrown = true ↔ ∃ e r, o = .thrown e r := by
  cases o <;> simp [isThrown]

/-- C2 (counterexample): with an active set whose first record decrypts
under `p1` and whose second record is corrupt, the unlock attempt under
`p1` throws but leaves `DECRYPTED_WALLETS` holding the first wallet — the
Key Ring is partially populated, not empty. -/
theorem unlock_all_or_nothing_counterexample :
    someRecordFails "p1"
      [⟨"A", .encrypted (.enc "skA" "0xAA" "p1")⟩, ⟨"B", .encrypted .corrupt⟩] = true ∧
    (unlockWallets
        [⟨"A", .encrypted (.enc "skA" "0xAA" "p1")⟩, ⟨"B", .encrypted .corrupt⟩]
        "p1").ring = [⟨"A", ⟨"skA", "0xAA"⟩⟩] ∧
    (unlockWallets
        [⟨"A", .encrypted (.enc "skA" "0xAA" "p1")⟩, ⟨"B", .encrypted .corrupt⟩]
        "p1").ring ≠ [] := by
  decide

/-- C2 (amended): when any record of the active set fails to decrypt, the
unlock attempt throws as a whole, but `DECRYPTED_WALLETS` is left holding
exactly the wallets decrypted before the failing record (it is emptied
only at the start of the attempt), so a failed unlock can leave the Key
Ring partially populated. -/
theorem unlock_failure_leaves_decrypted_records (raw : List RawWallet) (password : String)
    (h : someRecordFails password raw = true) :
    (unlockWallets raw password).isThrown = true ∧
    (unlockWallets raw password).ring = decryptedBeforeFailure password raw := by
  refine ⟨?_, ?_⟩
  · rw [UnlockOutcome.isThrown_eq_true_iff]
    exact (unlockWalletsLoop_thrown_iff password raw []).2 h
  · simpa using unlockWalletsLoop_ring password raw []

/-- Witness for the amended C2 at the two-record counterexample set. -/
theorem unlock_failure_leaves_decrypted_records_witness :
    (unlockWallets [⟨"A", .encrypted (.enc "skA" "0xAA" "p1")⟩,
        ⟨"B", .encrypted .corrupt⟩] "p1").isThrown = true ∧
    (unlockWallets [⟨"A", .encrypted (.enc "skA" "0xAA" "p1")⟩,
        ⟨"B", .encrypted .corrupt⟩] "p1").ring =
      decryptedBeforeFailure "p1" [⟨"A", .encrypted (.enc "skA" "0xAA" "p1")⟩,
        ⟨"B", .encrypted .corrupt⟩] :=
  unlock_failure_leaves_decrypted_records
    [⟨"A", .encrypted (.enc "skA" "0xAA" "p1")⟩, ⟨"B", .encrypted .corrupt⟩] "p1" (by decide)

/-- C8: with a non-empty, non-legacy record set, `initializeWallets`
exits fatally exactly when the first three prompted passwords all fail to
decrypt the set, and a success on attempt `k < 3` (after `k` failures,
each of which re-prompts) unlocks the wallets. -/
theorem unlock_retry_budget_three (raw : List RawWallet) (passwords : Nat → String)
    (hne : raw ≠ []) (hplain : firstIsPlain raw = false) :
    (initializeWallets raw passwords = .fatalExit ↔
      ∀ i < 3, decryptAll (passwords i) raw = none) ∧
    (∀ k, k < 3 → (∀ i < k, decryptAll (passwords i) raw = none) →
      ∀ ws, decryptAll (passwords k) raw = some ws →
        initializeWallets raw passwords = .unlocked ws) := by
  have hinit : initializeWallets raw passwords =
      attemptLoop raw [passwords 0, passwords 1, passwords 2] := by
    rw [initializeWallets, if_neg hne, if_neg (by simp [hplain])]
  constructor
  · rw [hinit]
    cases h0 : decryptAll (passwords 0) raw with
    | some ws =>
      simp only [attemptLoop, h0]
      constructor
      · intro h
        exact absurd h (by simp)
      · intro h
        have h0' := h 0 (by omega)
        rw [h0] at h0'
        exact absurd h0' (by simp)
    | none =>
      cases h1 : decryptAll (passwords 1) raw with
      | some ws =>
        simp only [attemptLoop, h0, h1]
        constructor
        · intro h
          exact absurd h (by simp)
        · intro h
          have h1' := h 1 (by omega)
          rw [h1] at h1'
          exact absurd h1' (by simp)
      | none =>
        cases h2 : decryptAll (passwords 2) raw with
        | some ws =>
          simp only [attemptLoop, h0, h1, h2]
          constructor
          · intro h
            exact absurd h (by simp)
          · intro h
            have h2' := h 2 (by omega)
            rw [h2] at h2'
            exact absurd h2' (by simp)
        | none =>
          simp only [attemptLoop, h0, h1, h2]
          constructor
          · intro _ i hi
            interval_cases i
            · exact h0
            · exact h1
            · exact h2
          · intro _
            trivial
  · intro k hk hprev ws hws
    rw [hinit]
    interval_cases k
    · simp [attemptLoop, hws]
    · have h0 := hprev 0 (by omega)
      simp [attemptLoop, h0, hws]
    · have h0 := hprev 0 (by omega)
      have h1 := hprev 1 (by omega)
      simp [attemptLoop, h0, h1, hws]

/-- Witness for C8 at the spec's own scenario: one record encrypted under
`p1`, all three prompts answered `p2` — the process exits fatally. -/
theorem unlock_retry_budget_three_witness :
    initializeWallets [⟨"A", .encrypted (.enc "skA" "0xAA" "p1")⟩] (fun _ => "p2") =
      .fatalExit :=
  ((unlock_retry_budget_three [⟨"A", .encrypted (.enc "skA" "0xAA" "p1")⟩] (fun _ => "p2")
      (by decide) (by decide)).1).mpr (by decide)

/-- C9: restoring trash entry `i` appends that record to the active set
exactly once and removes it from the trash (when the trash holds it only
once), so any further restore — at any index of the new trash — cannot
add that record to the active set again. -/
theorem restore_idempotent_no_duplicate (v : VaultFiles) (i : Nat)
    (hi : i < v.trash.length) (huniq : occCount (v.trash.get ⟨i, hi⟩) v.trash = 1) :
    occCount (v.trash.get ⟨i, hi⟩) (restoreWallet v i).active =
      occCount (v.trash.get ⟨i, hi⟩) v.active + 1 ∧
    occCount (v.trash.get ⟨i, hi⟩) (restoreWallet v i).trash = 0 ∧
    (∀ j, occCount (v.trash.get ⟨i, hi⟩) (restoreWallet (restoreWallet v i) j).active =
      occCount (v.trash.get ⟨i, hi⟩) (restoreWallet v i).active) := by
  have h1 : restoreWallet v i =
      { active := v.active ++ [v.trash.get ⟨i, hi⟩], trash := v.trash.eraseIdx i } := by
    rw [restoreWallet, dif_pos hi]
  have hactive : occCount (v.trash.get ⟨i, hi⟩) (restoreWallet v i).active =
      occCount (v.trash.get ⟨i, hi⟩) v.active + 1 := by
    rw [h1]
    simp [occCount_append, occCount_cons, occCount]
  have htrash : occCount (v.trash.get ⟨i, hi⟩) (restoreWallet v i).trash = 0 := by
    rw [h1]
    have := occCount_eraseIdx (v.trash.get ⟨i, hi⟩) v.trash i hi rfl
    simp only at this ⊢
    rw [this, huniq]
  refine ⟨hactive, htrash, ?_⟩
  intro j
  by_cases hj : j < (restoreWallet v i).trash.length
  · have hnotin : v.trash.get ⟨i, hi⟩ ∉ (restoreWallet v i).trash :=
      (occCount_eq_zero_iff _ _).1 htrash
    have hne : (restoreWallet v i).trash.get ⟨j, hj⟩ ≠ v.trash.get ⟨i, hi⟩ := by
      intro hEq
      exact hnotin (hEq ▸ List.get_mem _ j hj)
    have hne' : ¬(restoreWallet v i).trash[j] = v.trash[i] := by simpa using hne
    rw [restoreWallet, dif_pos hj]
    simp only
    rw [occCount_append, occCount_cons]
    simp [hne', occCount]
  · rw [restoreWallet, dif_neg hj]

/-- Witness for C9: a one-entry trash restored at index 0; the record
lands in the active set once, the trash is rid of it, and a second
restore at index 0 changes nothing. -/
theorem restore_idempotent_no_duplicate_witness :
    occCount (⟨"A", .encrypted (.enc "skA" "0xAA" "p1")⟩ : RawWallet)
      (restoreWallet ⟨[], [⟨"A", .encrypted (.enc "skA" "0xAA" "p1")⟩]⟩ 0).active = 0 + 1 ∧
    occCount (⟨"A", .encrypted (.enc "skA" "0xAA" "p1")⟩ : RawWallet)
      (restoreWallet ⟨[], [⟨"A", .encrypted (.enc "skA" "0xAA" "p1")⟩]⟩ 0).trash = 0 ∧
    occCount (⟨"A", .encrypted (.enc "skA" "0xAA" "p1")⟩ : RawWallet)
      (restoreWallet (restoreWallet ⟨[], [⟨"A", .encrypted (.enc "skA" "0xAA" "p1")⟩]⟩ 0)
        0).active = occCount (⟨"A", .encrypted (.enc "skA" "0xAA" "p1")⟩ : RawWallet)
      (restoreWallet ⟨[], [⟨"A", .encrypted (.enc "skA" "0xAA" "p1")⟩]⟩ 0).active := by
  have h := restore_idempotent_no_duplicate
    ⟨[], [⟨"A", .encrypted (.enc "skA" "0xAA" "p1")⟩]⟩ 0 (by decide) (by decide)
  exact ⟨h.1.trans (by decide), h.2.1, h.2.2 0⟩

theorem handleApproved_sentTx_confirmed (signer : Wallet) (user : UserChoices) (r : SRequest)
    (h : (handleApproved signer user r).any isSentTx = true) : user.approveTx = true := by
  unfold handleApproved at h
  repeat' split at h
  all_goals simp_all [isSentTx]

/-- Witness for C4 at a concrete two-request session with fresh
approvals: at most one response carries id 7. -/
theorem signing_request_response_discipline_witness :
    respondCount 7 (processSession ⟨"sk", "0xAA"⟩ (fun _ => ⟨true, true⟩)
      [⟨"t", 7, "personal_sign", .personalSign "0x48656c6c6f"⟩,
       ⟨"t", 8, "personal_sign", .personalSign "hi"⟩]) ≤ 1 :=
  (signing_request_response_discipline ⟨"sk", "0xAA"⟩ (fun _ => ⟨true, true⟩)
    [⟨"t", 7, "personal_sign", .personalSign "0x48656c6c6f"⟩,
     ⟨"t", 8, "personal_sign", .personalSign "hi"⟩] (by decide) 7).1

/-- C3 (counterexample): a concrete local native transfer on Ethereum
broadcasts a transaction although the whole flow contains no yes/no
confirmation prompt at all, refuting the claim that every local transfer
obtains its own explicit confirmation immediately before broadcast. -/
theorem local_transfer_without_confirmation :
    (transferAsset ⟨"ethereum", .native, false, "0xCC", "1.0"⟩).any isLocalBroadcast = true ∧
    (transferAsset ⟨"ethereum", .native, false, "0xCC", "1.0"⟩).all
      (fun e => !(isConfirm e)) = true := by
  decide

/-- C3 (amended): remote session requests are confirmation-gated — an
execution can only happen under that request's own fresh `Yes`, and an
`eth_sendTransaction` broadcast additionally requires its own transaction
confirmation — but the local transfer flow broadcasts with no yes/no
confirmation prompt anywhere, and the swap flow, when the router
allowance is already sufficient, likewise broadcasts the swap with no
confirmation at all. -/
theorem confirmation_gating_remote_only :
    (∀ (signer : Wallet) (user : UserChoices) (r : SRequest),
       (handleSessionRequest signer user r).any isExecEv = true →
         user.approveRequest = true) ∧
    (∀ (signer : Wallet) (user : UserChoices) (r : SRequest),
       (handleSessionRequest signer user r).any isSentTx = true →
         user.approveRequest = true ∧ user.approveTx = true) ∧
    (∀ inp : TransferInput, (transferAsset inp).all (fun e => !(isConfirm e)) = true) ∧
    (∀ inp : SwapInput, inp.amountIn ≤ inp.allowance →
       (swapToken inp).any isLocalBroadcast = true ∧
       (swapToken inp).all (fun e => !(isConfirm e)) = true) := by
  refine ⟨?_, ?_, ?_, ?_⟩
  · intro signer user r h
    cases hu : user.approveRequest
    · rw [handleSessionRequest] at h
      simp [hu, isExecEv] at h
    · rfl
  · intro signer user r h
    cases hu : user.approveRequest
    · rw [handleSessionRequest] at h
      simp [hu, isSentTx] at h
    · refine ⟨rfl, ?_⟩
      rw [handleSessionRequest] at h
      have h' : (handleApproved signer user r).any isSentTx = true := by
        simpa [hu, isSentTx] using h
      exact handleApproved_sentTx_confirmed signer user r h'
  · intro inp
    rcases inp with ⟨nk, asset, how, rec, amt⟩
    cases asset <;> cases how <;> simp [transferAsset, isConfirm]
  · intro inp h
    have hcond : ¬(inp.allowance < inp.amountIn) := by omega
    constructor
    · simp [swapToken, hcond, isLocalBroadcast]
    · simp [swapToken, hcond, isConfirm]

/-- Witness for the amended C3: a concrete swap with sufficient allowance
broadcasts with no confirmation anywhere. -/
theorem confirmation_gating_remote_only_witness :
    (swapToken ⟨"bsc", "JMPT", "0xR", "0xW", 5, 10, true⟩).any isLocalBroadcast = true ∧
    (swapToken ⟨"bsc", "JMPT", "0xR", "0xW", 5, 10, true⟩).all
      (fun e => !(isConfirm e)) = true :=
  confirmation_gating_remote_only.2.2.2 ⟨"bsc", "JMPT", "0xR", "0xW", 5, 10, true⟩
    (by decide)

/-- C5 (counterexample): rejecting a `personal_sign` request produces a
trace with no response event at all — no structured error object ever
reaches the peer for the rejected request. -/
theorem rejection_response_counterexample :
    handleSessionRequest ⟨"sk", "0xAA"⟩ ⟨false, false⟩
        ⟨"topic1", 7, "personal_sign", .personalSign "0x48656c6c6f"⟩ =
      [Ev.confirm "Approve personal_sign request?",
       Ev.display "Request rejected locally."] ∧
    (handleSessionRequest ⟨"sk", "0xAA"⟩ ⟨false, false⟩
        ⟨"topic1", 7, "personal_sign", .personalSign "0x48656c6c6f"⟩).all
      (fun e => !(isRespond e)) = true := by
  decide

/-- C5 (amended): when the user rejects a pending request, the cli
handler logs locally and sends no response whatsoever — neither a result
nor an error — and does not tear the session down; the structured
`code`/`message` error shape exists only in the headless prototype
handler of `part_002`, which responds with code 5000 (here at its
unsupported-method path; it never prompts, so it has no rejection path). -/
theorem rejection_sends_nothing_session_intact (signer : Wallet) (user : UserChoices)
    (r : SRequest) (h : user.approveRequest = false) :
    handleSessionRequest signer user r =
      [Ev.confirm (approvalPromptMessage r), Ev.display "Request rejected locally."] ∧
    (handleSessionRequest signer user r).all (fun e => !(isRespond e)) = true ∧
    Ev.disconnect ∉ handleSessionRequest signer user r ∧
    (∀ (w : Wallet) (q : SRequest), q.method ≠ "personal_sign" →
       q.method ≠ "eth_signTypedData" → q.method ≠ "eth_signTypedData_v4" →
       handleSessionRequestHeadless w q =
         [Ev.respond q.topic q.id (.error 5000 ("Method " ++ q.method ++ " not supported"))]) := by
  refine ⟨?_, ?_, ?_, ?_⟩
  · simp [handleSessionRequest, h]
  · simp [handleSessionRequest, h, isRespond]
  · simp [handleSessionRequest, h]
  · intro w q h1 h2 h3
    simp [handleSessionRequestHeadless, h1, h2, h3]

/-- Witness for the amended C5: a rejected `eth_sendTransaction` request
yields only the prompt and a local log line. -/
theorem rejection_sends_nothing_session_intact_witness :
    handleSessionRequest ⟨"sk", "0xAA"⟩ ⟨false, true⟩
        ⟨"t2", 9, "eth_sendTransaction", .sendTx ⟨"0xDD", "0x1", "0x", "0x5208"⟩⟩ =
      [Ev.confirm (approvalPromptMessage
          ⟨"t2", 9, "eth_sendTransaction", .sendTx ⟨"0xDD", "0x1", "0x", "0x5208"⟩⟩),
       Ev.display "Request rejected locally."] :=
  (rejection_sends_nothing_session_intact ⟨"sk", "0xAA"⟩ ⟨false, true⟩
    ⟨"t2", 9, "eth_sendTransaction", .sendTx ⟨"0xDD", "0x1", "0x", "0x5208"⟩⟩ rfl).1

/-- C6 (counterexample): for the hex payload `0x48656c6c6f` the approval
prompt reads `Approve personal_sign request?` — it does not display the
decoded text `Hello`; the decoded text is printed only after the user has
already approved. -/
theorem personal_sign_prompt_shows_no_payload :
    approvalPromptMessage ⟨"t", 1, "personal_sign", .personalSign "0x48656c6c6f"⟩ =
      "Approve personal_sign request?" ∧
    containsSubstr "Approve personal_sign request?" "Hello" = false := by
  decide

/-- C6 (amended): for an approved `personal_sign` request with a hex
payload whose bytes decode as valid UTF-8, the approval prompt shows
only the method name; the payload decoded to readable text is displayed
afterwards (at signing time), and the signature is computed over the raw
decoded bytes, never over the hex string itself.  When the bytes are not
valid UTF-8, `toUtf8String` throws before `signMessage` is called: the
`catch` logs an error and nothing is displayed, signed, or responded. -/
theorem personal_sign_decoded_bytes_signed (signer : Wallet) (user : UserChoices)
    (topic : String) (id : Nat) (msg : String) (bs : List Nat)
    (happrove : user.approveRequest = true) (hhex : isHexString msg = true)
    (hbytes : getBytes? msg = some bs) :
    (∀ readable, toUtf8String? bs = some readable →
      handleSessionRequest signer user ⟨topic, id, "personal_sign", .personalSign msg⟩ =
        [Ev.confirm "Approve personal_sign request?",
         Ev.display ("Signing: \"" ++ readable ++ "\""),
         Ev.exec id (.signedMessage (.bytes bs)),
         Ev.respond topic id (.result (.sig signer.privateKey (.bytes bs)))]) ∧
    (toUtf8String? bs = none →
      handleSessionRequest signer user ⟨topic, id, "personal_sign", .personalSign msg⟩ =
        [Ev.confirm "Approve personal_sign request?",
         Ev.display ("Error signing: " ++ libErrorMessage)]) := by
  constructor
  · intro readable hutf
    rw [handleSessionRequest]
    simp [happrove, handleApproved, approvalPromptMessage, hhex, hbytes, hutf]
  · intro hutf
    rw [handleSessionRequest]
    simp [happrove, handleApproved, approvalPromptMessage, hhex, hbytes, hutf]

/-- Witness for the amended C6: the spec's scenario payload
`0x48656c6c6f` decodes to `Hello`, which is displayed while the bytes
`[0x48, 0x65, 0x6c, 0x6c, 0x6f]` are signed; the non-UTF-8 payload
`0xff` hits the decode throw and produces no signature and no response. -/
theorem personal_sign_decoded_bytes_signed_witness :
    handleSessionRequest ⟨"sk", "0xAA"⟩ ⟨true, true⟩
        ⟨"t1", 3, "personal_sign", .personalSign "0x48656c6c6f"⟩ =
      [Ev.confirm "Approve personal_sign request?",
       Ev.display ("Signing: \"" ++ "Hello" ++ "\""),
       Ev.exec 3 (.signedMessage (.bytes [72, 101, 108, 108, 111])),
       Ev.respond "t1" 3 (.result (.sig "sk" (.bytes [72, 101, 108, 108, 111])))] ∧
    toUtf8String? [72, 101, 108, 108, 111] = some "Hello" ∧
    handleSessionRequest ⟨"sk", "0xAA"⟩ ⟨true, true⟩
        ⟨"t1", 4, "personal_sign", .personalSign "0xff"⟩ =
      [Ev.confirm "Approve personal_sign request?",
       Ev.display ("Error signing: " ++ libErrorMessage)] :=
  ⟨(personal_sign_decoded_bytes_signed ⟨"sk", "0xAA"⟩ ⟨true, true⟩ "t1" 3
      "0x48656c6c6f" [72, 101, 108, 108, 111] rfl (by decide) (by decide)).1
      "Hello" (by decide),
   by decide,
   (personal_sign_decoded_bytes_signed ⟨"sk", "0xAA"⟩ ⟨true, true⟩ "t1" 4
      "0xff" [255] rfl (by decide) (by decide)).2 (by decide)⟩

/-- C10: every transaction broadcast the session request handler ever
performs goes through the hard-coded endpoint `https://eth.llamarpc.com`
(`RPC_URL`), for every request and every user decision — the handler
consults no negotiated namespace or chain at all. -/
theorem session_send_transaction_uses_hardcoded_rpc
    (signer : Wallet) (user : UserChoices) (r : SRequest) (i : Nat) (rpc : String)
    (tx : TxParams) (h : Ev.exec i (.sentTx rpc tx) ∈ handleSessionRequest signer user r) :
    rpc = RPC_URL ∧ RPC_URL = "https://eth.llamarpc.com" := by
  refine ⟨?_, rfl⟩
  rw [handleSessionRequest] at h
  cases hu : user.approveRequest
  · simp [hu] at h
  · have h' : Ev.exec i (.sentTx rpc tx) ∈ handleApproved signer user r := by
      simpa [hu] using h
    unfold handleApproved at h'
    repeat' split at h'
    all_goals simp_all

/-- Witness for C10: a concrete approved `eth_sendTransaction` request
broadcasts through `RPC_URL`. -/
theorem session_send_transaction_uses_hardcoded_rpc_witness :
    "https://eth.llamarpc.com" = RPC_URL ∧ RPC_URL = "https://eth.llamarpc.com" :=
  session_send_transaction_uses_hardcoded_rpc ⟨"sk", "0xAA"⟩ ⟨true, true⟩
    ⟨"t3", 11, "eth_sendTransaction", .sendTx ⟨"0xDD", "0x1", "0x", "0x5208"⟩⟩ 11
    "https://eth.llamarpc.com" ⟨"0xDD", "0x1", "0x", "0x5208"⟩ (by decide)

end WalletCli
